import Mathlib

/-!
Verification of the Bristol council spending-analysis pipeline
(`1_scrape_and_clean_data.ipynb`).

The notebook is a linear pandas pipeline:
rename downloaded files to `{year}-{month}.csv` labels (Chronology
Assigner), normalize each CSV's columns (Schema Normalizer), check all
column lists agree (Schema Validator), concatenate (Combiner), and strip
mis-decoded characters (Text Sanitizer).  A final cell references a
nonexistent `num` column and crashes with an AttributeError.

This file gives a shallow embedding of those cells: a `Df` is a pandas
DataFrame reduced to its column list and cell rows; each stateful cell
becomes a pure function, and fallible pandas operations return
`Except PyErr`.
-/

/-- A single cell of a DataFrame: a string, a number, or a missing value
(pandas NaN / None). -/
inductive Cell where
  | str (s : String)
  | num (v : Int)
  | null
deriving DecidableEq, Repr

/-- A pandas DataFrame reduced to what the notebook inspects: the ordered
list of column names and the rows of cells. -/
structure Df where
  columns : List String
  rows : List (List Cell)
deriving DecidableEq, Repr

/-- The Python exceptions the modelled cells can raise. -/
inductive PyErr where
  | attributeError (name : String)
  | valueError
deriving DecidableEq, Repr

/-- View of an `Except` value as a sum, to derive decidable equality. -/
def exceptToSum {ε α : Type} : Except ε α → ε ⊕ α
  | Except.error e => Sum.inl e
  | Except.ok a => Sum.inr a

instance {ε α : Type} [DecidableEq ε] [DecidableEq α] :
    DecidableEq (Except ε α) := fun a b =>
  decidable_of_iff (exceptToSum a = exceptToSum b)
    (by cases a <;> cases b <;> simp [exceptToSum])

/-! ### Decimal rendering of integers

Python's f-string `f'{start_year}-{start_month}.csv'` renders the two
integers in decimal.  We model decimal rendering explicitly (least
significant digit first via `digsAux`, then reversed and mapped to
characters) so that injectivity of the rendering is provable. -/

/-- The character for one decimal digit. -/
def digitChar : Nat → Char
  | 0 => '0' | 1 => '1' | 2 => '2' | 3 => '3' | 4 => '4'
  | 5 => '5' | 6 => '6' | 7 => '7' | 8 => '8' | 9 => '9'
  | _ => '*'

/-- Least-significant-first decimal digits of `n`; the first argument is
fuel (`n` itself suffices since `n / 10` shrinks). -/
def digsAux : Nat → Nat → List Nat
  | _, 0 => []
  | 0, _ + 1 => []
  | fuel + 1, n + 1 => (n + 1) % 10 :: digsAux fuel ((n + 1) / 10)

/-- Least-significant-first decimal digits of `n` (empty for 0). -/
def toDigs (n : Nat) : List Nat := digsAux n n

/-- Evaluate a least-significant-first digit list back to a number. -/
def ofDigs : List Nat → Nat
  | [] => 0
  | d :: ds => d + 10 * ofDigs ds

/-- Decimal rendering of a natural number, as Python's `str` produces. -/
def natRepr (n : Nat) : List Char :=
  if n = 0 then ['0'] else ((toDigs n).map digitChar).reverse

/-- Decimal rendering of an integer, as Python's `str` produces. -/
def intRepr (i : Int) : List Char :=
  if i < 0 then '-' :: natRepr i.natAbs else natRepr i.natAbs

/-- Read a digit string back to its value (used to show the decimal
rendering is injective). -/
def reprVal (cs : List Char) : Nat :=
  ofDigs ((cs.map (fun c => c.toNat - 48)).reverse)

/-- Read a rendered integer back to its value. -/
def intReprVal : List Char → Int
  | [] => 0
  | c :: cs => if c = '-' then -(reprVal cs : Int) else reprVal (c :: cs)

/-! ### Chronology Assigner

Source cell:

```
start_month = 2
start_year = 2023
file_list = natsorted(os.listdir(DIRECTORY))
for filename in file_list:
    os.rename(DIRECTORY + filename, DIRECTORY + f'{start_year}-{start_month}.csv')
    start_month = start_month - 1
    if start_month == 0:
        start_month = 12
        start_year = start_year - 1
```
-/

/-- One iteration of the loop's date bookkeeping: decrement the month,
and on reaching 0 reset to December of the previous year.  State is
`(year, month)`. -/
def chronoStep (p : Int × Int) : Int × Int :=
  if p.2 - 1 = 0 then (p.1 - 1, 12) else (p.1, p.2 - 1)

/-- The filename `f'{y}-{m}.csv'` assigned by the rename loop. -/
def chronoName (y m : Int) : String :=
  String.mk (intRepr y ++ '-' :: (intRepr m ++ ['.', 'c', 's', 'v']))

/-- The successive `(year, month)` states of the rename loop, starting
from anchor `p`, for `n` files. -/
def chronoPairs : Int × Int → Nat → List (Int × Int)
  | _, 0 => []
  | p, n + 1 => p :: chronoPairs (chronoStep p) n

/-- The `n` filenames the rename loop assigns from anchor `(y, m)`. -/
def chronoNames (y m : Int) (n : Nat) : List String :=
  (chronoPairs (y, m) n).map (fun p => chronoName p.1 p.2)

/-! ### Natural sort (`natsorted`)

`natsort.natsorted` orders strings by splitting each into runs of digits
(compared numerically) and runs of non-digits (compared lexicographically
by code point); a digit run sorts before a non-digit run at the same
position. -/

/-- One component of a natural-sort key: a literal text run or the value
of a digit run. -/
inductive NatChunk where
  | txt (t : List Char)
  | digits (v : Nat)
deriving DecidableEq, Repr

/-- Numeric value of a run of decimal digit characters. -/
def digitsVal (ds : List Char) : Nat :=
  ds.foldl (fun acc c => 10 * acc + (c.toNat - 48)) 0

/-- Split a character list into alternating digit/non-digit chunks; the
first argument is fuel (the list's length suffices). -/
def natChunksAux : Nat → List Char → List NatChunk
  | _, [] => []
  | 0, _ :: _ => []
  | fuel + 1, c :: cs =>
    if c.isDigit then
      let p := (c :: cs).span Char.isDigit
      NatChunk.digits (digitsVal p.1) :: natChunksAux fuel p.2
    else
      let p := (c :: cs).span (fun d => !d.isDigit)
      NatChunk.txt p.1 :: natChunksAux fuel p.2

/-- The natural-sort key of a string. -/
def natKey (s : String) : List NatChunk := natChunksAux s.data.length s.data

/-- Code-point lexicographic comparison of character lists, as Python
compares strings. -/
def charListLt : List Char → List Char → Bool
  | [], [] => false
  | [], _ :: _ => true
  | _ :: _, [] => false
  | a :: as, b :: bs =>
    if a.toNat < b.toNat then true
    else if b.toNat < a.toNat then false
    else charListLt as bs

/-- Strict comparison of two key chunks: digit runs compare numerically,
text runs lexicographically, and a digit run sorts before a text run. -/
def chunkLt : NatChunk → NatChunk → Bool
  | .digits a, .digits b => decide (a < b)
  | .txt a, .txt b => charListLt a b
  | .digits _, .txt _ => true
  | .txt _, .digits _ => false

/-- Lexicographic comparison of natural-sort keys. -/
def keyLt : List NatChunk → List NatChunk → Bool
  | [], [] => false
  | [], _ :: _ => true
  | _ :: _, [] => false
  | a :: as, b :: bs =>
    if chunkLt a b then true
    else if chunkLt b a then false
    else keyLt as bs

/-- Non-strict natural-sort comparison of strings. -/
def natLeB (a b : String) : Bool := !(keyLt (natKey b) (natKey a))

/-- `natsort.natsorted`: stable sort by natural-sort key. -/
def natsorted (l : List String) : List String :=
  l.insertionSort (fun a b => natLeB a b = true)

/-- Python's plain `sorted` on strings: stable sort in code-point
lexicographic order (used by the Schema Validator cell). -/
def strLeB (a b : String) : Bool := !(charListLt b.data a.data)

/-- Plain lexicographic sort of filenames, as `sorted(os.listdir(...))`. -/
def lexSortNames (l : List String) : List String :=
  l.insertionSort (fun a b => strLeB a b = true)

/-- The association the rename loop realises: the i-th file of the
naturally sorted listing is renamed to the i-th generated label. -/
def chronoAssign (y m : Int) (files : List String) : List (String × String) :=
  (natsorted files).zip (chronoNames y m files.length)

/-- The decrement described by claim C1's wording: from month 1 wrap to
month 12 of the previous year, otherwise decrement the month.  Stated
from the specification's words, to be compared with `chronoStep`. -/
def specDecrement (p : Int × Int) : Int × Int :=
  if p.2 = 1 then (p.1 - 1, 12) else (p.1, p.2 - 1)

/-! ### Schema Normalizer

Source cell (per file):

```
df = pd.read_csv(..., encoding='latin', on_bad_lines='warn')
rename_columns = {'Name': 'Supplier', 'Description Line 1': 'Description 1',
                  'Description Line 2': 'Description 2', 'Description Line 3': 'Description 3'}
for key, value in rename_columns.items():
    if key in df.columns:
        df.rename(columns={key:value}, inplace=True)
if 'Pay Date' not in df.columns:
    date = os.path.splitext(filename)
    df.insert(2, 'Pay Date', date[0])
del_columns = ['Body', 'Body Name', 'Transaction Number', 'Ref',
               'Unnamed: 8', 'Unnamed: 9', 'Unnamed: 0']
for name in del_columns:
    if name in df.columns:
        df = df.drop(columns=[name])
if len(df.columns) != 6:
    print(filename)
df.to_csv(..., index=False)
```
-/

/-- `os.path.splitext(fn)[0]`: the filename minus its extension.  The
extension starts at the last dot, provided some earlier character of the
name is not a dot (CPython's rule for dotfiles). -/
def splitextStem (fn : String) : String :=
  let cs := fn.data
  match cs.reverse.findIdx? (fun c => c = '.') with
  | none => fn
  | some k =>
    let i := cs.length - 1 - k
    if (cs.take i).any (fun c => c ≠ '.') then String.mk (cs.take i) else fn

/-- The notebook's rename table, in Python dict order. -/
def rename_columns : List (String × String) :=
  [("Name", "Supplier"),
   ("Description Line 1", "Description 1"),
   ("Description Line 2", "Description 2"),
   ("Description Line 3", "Description 3")]

/-- One guarded rename: `if key in df.columns: df.rename(columns={key:value})`.
`DataFrame.rename` replaces every column whose name equals the key. -/
def applyRename (df : Df) (kv : String × String) : Df :=
  if kv.1 ∈ df.columns then
    { df with columns := df.columns.map (fun c => if c = kv.1 then kv.2 else c) }
  else df

/-- `if 'Pay Date' not in df.columns: df.insert(2, 'Pay Date', stem)`.
pandas `DataFrame.insert` raises when the position exceeds the current
column count, which here means fewer than 2 columns. -/
def payDateInsert (fn : String) (df : Df) : Except PyErr Df :=
  if "Pay Date" ∈ df.columns then Except.ok df
  else if df.columns.length < 2 then Except.error PyErr.valueError
  else Except.ok
    { columns := df.columns.insertIdx 2 "Pay Date",
      rows := df.rows.map (fun r => r.insertIdx 2 (Cell.str (splitextStem fn))) }

/-- The notebook's deny-list of administrative/reference columns. -/
def del_columns : List String :=
  ["Body", "Body Name", "Transaction Number", "Ref",
   "Unnamed: 8", "Unnamed: 9", "Unnamed: 0"]

/-- `df.drop(columns=[name])`: removes every column of that name together
with its cells. -/
def dropColumn (df : Df) (name : String) : Df :=
  { columns := df.columns.filter (fun c => c ≠ name),
    rows := df.rows.map (fun r =>
      ((df.columns.zip r).filter (fun p => p.1 ≠ name)).map Prod.snd) }

/-- One guarded drop: `if name in df.columns: df = df.drop(columns=[name])`. -/
def applyDrop (df : Df) (name : String) : Df :=
  if name ∈ df.columns then dropColumn df name else df

/-- The per-file normalization body: guarded renames, Pay Date synthesis,
guarded deny-list drops. -/
def normalizeFile (fn : String) (df : Df) : Except PyErr Df := do
  let d1 := rename_columns.foldl applyRename df
  let d2 ← payDateInsert fn d1
  pure (del_columns.foldl applyDrop d2)

/-- The canonical 6-column header in the spec's order. -/
def canonicalColumns : List String :=
  ["Supplier", "Description 1", "Description 2", "Description 3", "Pay Date", "Amount"]

/-- The whole per-file cell: normalize, then flag the filename when the
resulting column count is not 6 (`print(filename)`), then rewrite the
file unconditionally.  The returned `Df` is the content written back to
disk; the list is the diagnostic output. -/
def cleanFile (fn : String) (df : Df) : Except PyErr (Df × List String) := do
  let d ← normalizeFile fn df
  pure (d, if d.columns.length ≠ 6 then [fn] else [])

/-! ### Combiner

Source cell: read every file, `pd.concat(dataframes, ignore_index=True)`,
write one consolidated CSV.  With `sort=False` (the default) the combined
columns are the union of the inputs' columns in order of first
appearance; rows of a file lacking a column get NaN there; `pd.concat`
raises when given no objects. -/

/-- Combined column list: first-appearance union. -/
def unionCols (dfs : List Df) : List String :=
  dfs.foldl (fun acc df => acc ++ df.columns.filter (fun c => c ∉ acc)) []

/-- Align one row of `df` to the combined column list, filling missing
columns with NaN. -/
def reindexRow (cols : List String) (df : Df) (r : List Cell) : List Cell :=
  cols.map (fun c =>
    if c ∈ df.columns then r.getD (df.columns.indexOf c) Cell.null else Cell.null)

/-- `pd.concat(dfs, ignore_index=True)` on a nonempty list. -/
def concatDfs (dfs : List Df) : Df :=
  { columns := unionCols dfs,
    rows := (dfs.map (fun df => df.rows.map (reindexRow (unionCols dfs) df))).flatten }

/-- The combiner cell: `pd.concat` raises `ValueError` on an empty list
of objects. -/
def combine (dfs : List Df) : Except PyErr Df :=
  if dfs = [] then Except.error PyErr.valueError else Except.ok (concatDfs dfs)

/-! ### Schema Validator

Source cell:

```
csv_files = sorted(os.listdir(DIRECTORY))
first_file = pd.read_csv(os.path.join(DIRECTORY, csv_files[0]))
column_names = first_file.columns.tolist()
for file in csv_files[1:]:
    next_file = pd.read_csv(os.path.join(DIRECTORY, file))
    if next_file.columns.tolist() != column_names:
        print(f'Column names in {format(file)} do not match')
        exit()
print('all columns match!')
```
-/

/-- Outcome of the validation cell: the reported mismatching filename, or
success (`all columns match!`). -/
inductive VResult where
  | mismatch (name : String)
  | ok
deriving DecidableEq, Repr

/-- The validation loop over the non-first files: stop at the first file
whose column list differs from the reference. -/
def checkRest (ref : List String) : List (String × Df) → VResult
  | [] => VResult.ok
  | (n, df) :: rest =>
    if df.columns ≠ ref then VResult.mismatch n else checkRest ref rest

/-- `sorted(os.listdir(DIRECTORY))` applied to named files. -/
def sortByName (files : List (String × Df)) : List (String × Df) :=
  files.insertionSort (fun a b => strLeB a.1 b.1 = true)

/-- The validator cell: reference columns come from the first file in
plain sorted order; `none` models the `IndexError` on an empty directory. -/
def validate (files : List (String × Df)) : Option VResult :=
  match sortByName files with
  | [] => none
  | first :: rest => some (checkRest first.2.columns rest)

/-- The validator cell as a pass over the directory: it only reads the
files, so the directory contents pass through unchanged alongside the
result. -/
def validatePass (files : List (String × Df)) :
    List (String × Df) × Option VResult :=
  (files, validate files)

/-! ### Text Sanitizer

Source cell:

```
chars_to_remove = ['Â', 'Ã']
def clean_text(x, chars_to_remove):
    if isinstance(x, str):
        for char in chars_to_remove:
            x = x.replace(char, '')
        return x
    else:
        return x
df_cleaned = df.applymap(lambda x: clean_text(x, chars_to_remove))
```
-/

/-- The fixed denylist of mis-decoded characters. -/
def chars_to_remove : List Char := ['Â', 'Ã']

/-- `x.replace(char, '')`: delete every occurrence of one character. -/
def removeChar (s : String) (c : Char) : String :=
  String.mk (s.data.filter (fun d => d ≠ c))

/-- The notebook's `clean_text`: strings lose every denylisted character,
any other value is returned unchanged. -/
def clean_text (x : Cell) (chars : List Char) : Cell :=
  match x with
  | Cell.str s => Cell.str (chars.foldl removeChar s)
  | x => x

/-- `df.applymap(lambda x: clean_text(x, chars_to_remove))`: elementwise
over cells; column labels are untouched. -/
def sanitizeDf (df : Df) : Df :=
  { columns := df.columns,
    rows := df.rows.map (List.map (fun x => clean_text x chars_to_remove)) }

/-! ### Amount sign-normalization cell

Source cell (its result is discarded and its `to_csv` is commented out):

```
df = pd.read_csv('bristol_spending_data.csv')
df.num.mask(df.num.str[-1].isin(['-','+']), df.num.str[-1].str.cat(df.num.str[:-1])).astype('float')
```

`df.num` is attribute-style column access: it raises `AttributeError`
when no column is named `num`.  The notebook's recorded output shows
exactly this crash. -/

/-- Attribute-style column access `df.name`: the column's cells, or an
`AttributeError` when no such column exists. -/
def getattrCol (df : Df) (name : String) : Except PyErr (List Cell) :=
  if name ∈ df.columns then
    Except.ok (df.rows.map (fun r => r.getD (df.columns.indexOf name) Cell.null))
  else Except.error (PyErr.attributeError name)

/-- The intended elementwise effect of the `mask`/`str.cat` expression:
move a trailing `-` or `+` to the front of a string cell. -/
def moveTrailingSign (c : Cell) : Cell :=
  match c with
  | Cell.str s =>
    match s.data.getLast? with
    | some ch =>
      if ch = '-' ∨ ch = '+' then Cell.str (String.mk (ch :: s.data.dropLast))
      else Cell.str s
    | none => Cell.str s
  | c => c

/-- The sign-normalization cell.  Evaluation order: `df.num` is resolved
first, so a missing `num` column raises before anything else runs.  On
the success path the masked column is computed and discarded (the final
`astype('float')` only converts that discarded value) and the frame is
left unchanged. -/
def amountSignPass (df : Df) : Except PyErr Df := do
  let col ← getattrCol df "num"
  let _ := col.map moveTrailingSign
  pure df

/-! ### Chronology rename loop as a directory transformation (for C10)

`os.rename(old, new)` removes `old` from the directory and (re)creates
`new`, silently replacing any existing file of that name.  The directory
is modelled as a `Finset` of filenames. -/

/-- `os.rename` on a directory. -/
def osRename (d : Finset String) (old new : String) : Finset String :=
  insert new (d.erase old)

/-- The rename loop: walk the naturally sorted listing, renaming each
file to the current `{year}-{month}.csv` label and decrementing. -/
def renameLoop : List String → Int → Int → Finset String → Finset String
  | [], _, _, d => d
  | f :: fs, y, m, d =>
    renameLoop fs (chronoStep (y, m)).1 (chronoStep (y, m)).2
      (osRename d f (chronoName y m))

/-- A filename of the form the scraper produced: one or more decimal
digits followed by `.csv`. -/
def isNumericCsv (s : String) : Bool :=
  let cs := s.data
  decide (4 < cs.length) &&
    (cs.take (cs.length - 4)).all Char.isDigit &&
    decide (cs.drop (cs.length - 4) = ['.', 'c', 's', 'v'])

/-- The `(year, month)` pair read as a single month count, for showing
the rename loop's labels strictly decrease. -/
def monthIdx (p : Int × Int) : Int := 12 * p.1 + p.2

/-! ### Concrete sample frames used by witnesses and counterexamples -/

/-- A file already in the spec's canonical shape. -/
def dfCanon : Df :=
  { columns := canonicalColumns,
    rows := [[Cell.str "ACME", Cell.str "d1", Cell.str "d2", Cell.str "d3",
              Cell.str "2010-1", Cell.num 600]] }

/-- A legacy-schema file: `Name`/`Description Line i` headers, no
`Pay Date`, no deny-listed columns. -/
def dfLegacy : Df :=
  { columns := ["Name", "Description Line 1", "Description Line 2",
                "Description Line 3", "Amount"],
    rows := [[Cell.str "ACME", Cell.str "a", Cell.str "b", Cell.str "c",
              Cell.num 600]] }

/-- What the normalizer makes of `dfLegacy` under filename `2019-4.csv`:
renames applied and `Pay Date` synthesized at position 2. -/
def dfLegacyNorm : Df :=
  { columns := ["Supplier", "Description 1", "Pay Date", "Description 2",
                "Description 3", "Amount"],
    rows := [[Cell.str "ACME", Cell.str "a", Cell.str "2019-4", Cell.str "b",
              Cell.str "c", Cell.num 600]] }

/-- A four-column file: normalization leaves it nonconformant (column
count 4), exercising the diagnostic branch. -/
def dfFourCol : Df :=
  { columns := ["Supplier", "Description 1", "Pay Date", "Amount"],
    rows := [[Cell.str "ACME", Cell.str "a", Cell.str "2009-7", Cell.num 600]] }

/-- A file satisfying C4's literal hypotheses (canonical names present,
`Pay Date` present, no deny-listed column) that still carries a
rename-source column `Name`. -/
def dfBoth : Df :=
  { columns := ["Supplier", "Description 1", "Description 2", "Description 3",
                "Pay Date", "Amount", "Name"],
    rows := [[Cell.str "ACME", Cell.str "a", Cell.str "b", Cell.str "c",
              Cell.str "2023-2", Cell.num 600, Cell.str "ACME"]] }

/-- The normalizer's output on `dfBoth`: the trailing `Name` column has
been renamed to a second `Supplier` column. -/
def dfBothOut : Df :=
  { columns := ["Supplier", "Description 1", "Description 2", "Description 3",
                "Pay Date", "Amount", "Supplier"],
    rows := [[Cell.str "ACME", Cell.str "a", Cell.str "b", Cell.str "c",
              Cell.str "2023-2", Cell.num 600, Cell.str "ACME"]] }

theorem chronoStep_eq_specDecrement : chronoStep = specDecrement := by
  funext p
  unfold chronoStep specDecrement
  rcases p with ⟨y, m⟩
  by_cases h : m = 1
  · simp [h]
  · have h1 : ¬(m - 1 = 0) := by omega
    simp [h, h1]

theorem chronoPairs_length (p : Int × Int) (n : Nat) :
    (chronoPairs p n).length = n := by
  induction n generalizing p with
  | zero => rfl
  | succ k ih => simp [chronoPairs, ih]

theorem chronoPairs_getElem? (n : Nat) (p : Int × Int) (i : Nat) (h : i < n) :
    (chronoPairs p n)[i]? = some (chronoStep^[i] p) := by
  induction n generalizing p i with
  | zero => omega
  | succ k ih =>
    cases i with
    | zero => simp [chronoPairs]
    | succ j =>
      have hj : j < k := by omega
      simp only [chronoPairs, List.getElem?_cons_succ]
      rw [ih (chronoStep p) j hj, Function.iterate_succ_apply]

theorem getElem?_zip_of {α β : Type} (l1 : List α) (l2 : List β) :
    ∀ (i : Nat) (a : α) (b : β), l1[i]? = some a → l2[i]? = some b →
      (l1.zip l2)[i]? = some (a, b) := by
  induction l1 generalizing l2 with
  | nil => intro i a b h1; simp at h1
  | cons x xs ih =>
    intro i a b h1 h2
    cases l2 with
    | nil => simp at h2
    | cons y ys =>
      cases i with
      | zero => simp_all [List.zip]
      | succ j =>
        simp only [List.getElem?_cons_succ] at h1 h2
        simpa [List.zip] using ih ys j a b h1 h2

/-- C1: for every anchor `(year, month)` with `1 ≤ month ≤ 12` and every
list of input files, the i-th file in natural sort order of the original
names (0-based, so the Nth file with N = i + 1) is paired with the label
obtained by decrementing the anchor month i times, where a decrement from
month 1 wraps to month 12 of the previous year. -/
theorem c1_chronology_assignment (y m : Int) (files : List String) (i : Nat)
    (hm1 : 1 ≤ m) (hm2 : m ≤ 12) (hi : i < files.length) :
    (chronoAssign y m files)[i]? =
      ((natsorted files)[i]?).map
        (fun f => (f, chronoName (specDecrement^[i] (y, m)).1
                                 (specDecrement^[i] (y, m)).2)) := by
  have hlen : (natsorted files).length = files.length :=
    List.length_insertionSort _ _
  have hi' : i < (natsorted files).length := by omega
  have h1 : (natsorted files)[i]? = some ((natsorted files)[i]) :=
    List.getElem?_eq_getElem hi'
  have h2 : (chronoNames y m files.length)[i]? =
      some (chronoName (chronoStep^[i] (y, m)).1 (chronoStep^[i] (y, m)).2) := by
    unfold chronoNames
    rw [List.getElem?_map, chronoPairs_getElem? files.length (y, m) i hi]
    rfl
  rw [chronoStep_eq_specDecrement] at h2
  unfold chronoAssign
  rw [getElem?_zip_of (natsorted files) (chronoNames y m files.length) i _ _ h1 h2,
    h1]
  rfl

/-- Witness for C1 at the spec's concrete test: anchor (2023, 2) and three
files; the second file in natural order gets label `2023-1`, and the full
label list is `2023-2.csv`, `2023-1.csv`, `2022-12.csv` in order. -/
theorem c1_chronology_assignment_witness :
    (1 : Int) ≤ 2 ∧ (2 : Int) ≤ 12 ∧ (1 < (["0.csv", "1.csv", "2.csv"] : List String).length) ∧
    (chronoAssign 2023 2 ["0.csv", "1.csv", "2.csv"])[1]? = some ("1.csv", "2023-1.csv") ∧
    chronoNames 2023 2 3 = ["2023-2.csv", "2023-1.csv", "2022-12.csv"] := by
  refine ⟨by decide, by decide, by decide, ?_, by decide⟩
  rw [c1_chronology_assignment 2023 2 ["0.csv", "1.csv", "2.csv"] 1
    (by decide) (by decide) (by decide)]
  decide

/-- C9: the natural (numeric-aware) sort used before renaming puts
`"2.csv", "10.csv", "1.csv"` into the order `"1.csv", "2.csv", "10.csv"`,
while the plain lexicographic sort would give `"1.csv", "10.csv", "2.csv"`. -/
theorem c9_natural_sort_order :
    natsorted ["2.csv", "10.csv", "1.csv"] = ["1.csv", "2.csv", "10.csv"] ∧
    lexSortNames ["2.csv", "10.csv", "1.csv"] = ["1.csv", "10.csv", "2.csv"] := by
  decide

/-! ### Combiner: row conservation (C3) and header (C2) -/

/-- C3: for every nonempty set of input frames the combiner succeeds and
the combined row count is the sum of the per-file row counts: no row is
dropped, duplicated, or deduplicated by `pd.concat`. -/
theorem c3_combiner_row_conservation (dfs : List Df) (c : Df)
    (h : combine dfs = Except.ok c) :
    c.rows.length = (dfs.map (fun df => df.rows.length)).sum := by
  unfold combine at h
  split at h
  · exact absurd h (by simp)
  · have hc : concatDfs dfs = c := by injection h
    subst hc
    simp [concatDfs, List.length_flatten, List.map_map, Function.comp_def,
      List.length_map]

/-- Witness for C3 at two concrete frames with different schemas. -/
theorem c3_combiner_row_conservation_witness :
    combine [dfCanon, dfFourCol] = Except.ok (concatDfs [dfCanon, dfFourCol]) ∧
    (concatDfs [dfCanon, dfFourCol]).rows.length =
      ([dfCanon, dfFourCol].map (fun df => df.rows.length)).sum := by
  refine ⟨by decide, ?_⟩
  exact c3_combiner_row_conservation [dfCanon, dfFourCol] _ (by decide)

theorem foldl_union_acc (l : List Df) (L : List String)
    (h : ∀ df ∈ l, df.columns = L) :
    l.foldl (fun acc df => acc ++ df.columns.filter (fun c => c ∉ acc)) L = L := by
  induction l with
  | nil => rfl
  | cons d t ih =>
    have hd : d.columns = L := h d (by simp)
    have hzero : L.filter (fun c => c ∉ L) = [] := by
      rw [List.filter_eq_nil_iff]
      intro a ha
      simp [ha]
    rw [List.foldl_cons, hd, hzero, List.append_nil]
    exact ih (fun df hdf => h df (by simp [hdf]))

theorem unionCols_all_eq (dfs : List Df) (L : List String) (hne : dfs ≠ [])
    (h : ∀ df ∈ dfs, df.columns = L) : unionCols dfs = L := by
  cases dfs with
  | nil => exact absurd rfl hne
  | cons d t =>
    have hd : d.columns = L := h d (by simp)
    unfold unionCols
    rw [List.foldl_cons, List.nil_append, hd]
    have hall : L.filter (fun c => c ∉ ([] : List String)) = L := by
      rw [List.filter_eq_self]
      intro a _
      simp
    rw [hall]
    exact foldl_union_acc t L (fun df hdf => h df (by simp [hdf]))

/-- C2 counterexample: a legacy file fully processed by the normalizer
(with `Pay Date` synthesized from the filename) that passes validation,
yet whose consolidated header is not the canonical order — the synthetic
`Pay Date` lands at position 2, not position 4. -/
theorem c2_counterexample :
    normalizeFile "2019-4.csv" dfLegacy = Except.ok dfLegacyNorm ∧
    validate [("2019-4.csv", dfLegacyNorm)] = some VResult.ok ∧
    combine [dfLegacyNorm] = Except.ok (concatDfs [dfLegacyNorm]) ∧
    (concatDfs [dfLegacyNorm]).columns ≠ canonicalColumns := by
  decide

/-- C2 (amended): when the input set is nonempty and every file's
post-normalization column list equals the canonical 6-column list, the
consolidated dataset has exactly the canonical header. -/
theorem c2_amended_canonical_header (inputs : List (String × Df)) (dfs : List Df)
    (hnorm : inputs.map (fun p => normalizeFile p.1 p.2) = dfs.map Except.ok)
    (hne : dfs ≠ [])
    (hcols : ∀ df ∈ dfs, df.columns = canonicalColumns) :
    combine dfs = Except.ok (concatDfs dfs) ∧
    (concatDfs dfs).columns = canonicalColumns := by
  refine ⟨?_, ?_⟩
  · unfold combine
    simp [hne]
  · show unionCols dfs = canonicalColumns
    exact unionCols_all_eq dfs canonicalColumns hne hcols

/-- Witness for the amended C2: one canonical file. -/
theorem c2_amended_canonical_header_witness :
    ([("2010-1.csv", dfCanon)].map (fun p => normalizeFile p.1 p.2) =
      [dfCanon].map Except.ok) ∧
    ([dfCanon] ≠ ([] : List Df)) ∧
    (∀ df ∈ [dfCanon], df.columns = canonicalColumns) ∧
    (combine [dfCanon] = Except.ok (concatDfs [dfCanon]) ∧
      (concatDfs [dfCanon]).columns = canonicalColumns) := by
  refine ⟨by decide, by decide, by decide, ?_⟩
  exact c2_amended_canonical_header [("2010-1.csv", dfCanon)] [dfCanon]
    (by decide) (by decide) (by decide)

/-! ### Schema Normalizer flag policy (C7) -/

/-- C7: whenever normalization completes, the per-file cell emits the
filename as a diagnostic exactly when the post-normalization column
count differs from 6, and in either case the (possibly nonconformant)
normalized frame is the content rewritten to disk. -/
theorem c7_flag_policy (fn : String) (df d : Df)
    (h : normalizeFile fn df = Except.ok d) :
    cleanFile fn df = Except.ok (d, if d.columns.length ≠ 6 then [fn] else []) := by
  unfold cleanFile
  rw [h]
  rfl

/-- Witness for C7: a four-column file is flagged yet still written
unchanged. -/
theorem c7_flag_policy_witness :
    normalizeFile "2009-7.csv" dfFourCol = Except.ok dfFourCol ∧
    cleanFile "2009-7.csv" dfFourCol = Except.ok (dfFourCol, ["2009-7.csv"]) := by
  refine ⟨by decide, ?_⟩
  exact (c7_flag_policy "2009-7.csv" dfFourCol dfFourCol (by decide)).trans
    (by decide)

/-! ### Text Sanitizer (C8) -/

/-- C8: the sanitizer maps `clean_text` over every cell; on a string cell
it removes every occurrence of every denylisted character, and numeric
and null cells pass through unchanged; `"FooÂBar"` becomes `"FooBar"`. -/
theorem c8_text_sanitizer :
    (∀ df : Df, (sanitizeDf df).columns = df.columns ∧
      (sanitizeDf df).rows =
        df.rows.map (List.map (fun x => clean_text x chars_to_remove))) ∧
    (∀ s : String, clean_text (Cell.str s) chars_to_remove =
      Cell.str (String.mk (s.data.filter (fun c => c ∉ chars_to_remove)))) ∧
    (∀ v : Int, clean_text (Cell.num v) chars_to_remove = Cell.num v) ∧
    clean_text Cell.null chars_to_remove = Cell.null ∧
    clean_text (Cell.str "FooÂBar") chars_to_remove = Cell.str "FooBar" := by
  refine ⟨fun df => ⟨rfl, rfl⟩, ?_, fun v => rfl, rfl, by decide⟩
  intro s
  have hfold : clean_text (Cell.str s) chars_to_remove =
      Cell.str (String.mk ((s.data.filter (fun d => d ≠ 'Â')).filter
        (fun d => d ≠ 'Ã'))) := rfl
  rw [hfold, List.filter_filter]
  have hpt : ∀ c ∈ s.data,
      (decide (c ≠ 'Ã') && decide (c ≠ 'Â')) = decide (c ∉ chars_to_remove) := by
    intro c _
    by_cases h1 : c = 'Â' <;> by_cases h2 : c = 'Ã' <;>
      simp [h1, h2, chars_to_remove]
  rw [List.filter_congr hpt]

/-! ### Schema Validator (C5) -/

theorem checkRest_eq_find? (ref : List String) (l : List (String × Df)) :
    checkRest ref l =
      (match l.find? (fun p => p.2.columns ≠ ref) with
       | some p => VResult.mismatch p.1
       | none => VResult.ok) := by
  induction l with
  | nil => rfl
  | cons a t ih =>
    rcases a with ⟨n, df⟩
    rw [List.find?_cons]
    by_cases hc : df.columns = ref
    · simp [checkRest, hc, ih]
    · simp [checkRest, hc]

/-- C5: with the first file (in plain sorted order) as reference, the
validator reports the name of the first file whose column list differs
(halting there), reports success when every column list matches, and in
both cases passes the directory through unmodified. -/
theorem c5_schema_validator (files : List (String × Df)) (first : String × Df)
    (rest : List (String × Df)) (h : sortByName files = first :: rest) :
    validatePass files =
      (files,
        some (match rest.find? (fun p => p.2.columns ≠ first.2.columns) with
              | some p => VResult.mismatch p.1
              | none => VResult.ok)) := by
  unfold validatePass validate
  rw [h]
  show (files, some (checkRest first.2.columns rest)) = _
  rw [checkRest_eq_find?]

/-- Witness for C5: `[A,B,C]` versus `[A,C,B]` is reported as a mismatch
naming the offending file, and identical column lists validate. -/
theorem c5_schema_validator_witness :
    sortByName [("a.csv", Df.mk ["A", "B", "C"] []), ("b.csv", Df.mk ["A", "C", "B"] [])] =
      ("a.csv", Df.mk ["A", "B", "C"] []) :: [("b.csv", Df.mk ["A", "C", "B"] [])] ∧
    validatePass [("a.csv", Df.mk ["A", "B", "C"] []), ("b.csv", Df.mk ["A", "C", "B"] [])] =
      ([("a.csv", Df.mk ["A", "B", "C"] []), ("b.csv", Df.mk ["A", "C", "B"] [])],
        some (VResult.mismatch "b.csv")) ∧
    validatePass [("a.csv", Df.mk ["A", "B", "C"] []), ("b.csv", Df.mk ["A", "B", "C"] [])] =
      ([("a.csv", Df.mk ["A", "B", "C"] []), ("b.csv", Df.mk ["A", "B", "C"] [])],
        some VResult.ok) := by
  refine ⟨by decide, ?_, by decide⟩
  exact (c5_schema_validator
    [("a.csv", Df.mk ["A", "B", "C"] []), ("b.csv", Df.mk ["A", "C", "B"] [])]
    ("a.csv", Df.mk ["A", "B", "C"] []) [("b.csv", Df.mk ["A", "C", "B"] [])]
    (by decide)).trans (by decide)

/-! ### Amount sign-normalization crash (C6) -/

theorem mem_unionCols (dfs : List Df) (c : String) (h : c ∈ unionCols dfs) :
    ∃ df ∈ dfs, c ∈ df.columns := by
  unfold unionCols at h
  suffices haux : ∀ (l : List Df) (acc : List String),
      c ∈ l.foldl (fun acc df => acc ++ df.columns.filter (fun x => x ∉ acc)) acc →
      c ∈ acc ∨ ∃ df ∈ l, c ∈ df.columns by
    rcases haux dfs [] h with h' | h'
    · simp at h'
    · exact h'
  intro l
  induction l with
  | nil =>
    intro acc hacc
    exact Or.inl hacc
  | cons d t ih =>
    intro acc hacc
    rcases ih _ hacc with h' | h'
    · rcases List.mem_append.mp h' with h'' | h''
      · exact Or.inl h''
      · exact Or.inr ⟨d, by simp, (List.mem_filter.mp h'').1⟩
    · rcases h' with ⟨df, hmem, hcc⟩
      exact Or.inr ⟨df, by simp [hmem], hcc⟩

/-- C6: on every dataset the combiner can produce from frames having no
`num` column, the sign-normalization cell raises `AttributeError` at the
`df.num` attribute lookup instead of normalizing anything. -/
theorem c6_sign_pass_crashes (dfs : List Df) (c : Df)
    (hnum : ∀ df ∈ dfs, "num" ∉ df.columns)
    (hc : combine dfs = Except.ok c) :
    amountSignPass c = Except.error (PyErr.attributeError "num") := by
  unfold combine at hc
  split at hc
  · exact absurd hc (by simp)
  · have hceq : concatDfs dfs = c := by injection hc
    subst hceq
    have hnc : "num" ∉ (concatDfs dfs).columns := by
      intro hmem
      rcases mem_unionCols dfs "num" hmem with ⟨df, hd, hcc⟩
      exact hnum df hd hcc
    simp [amountSignPass, getattrCol, hnc, Except.bind]

/-- Witness for C6: the combined canonical frame crashes the pass. -/
theorem c6_sign_pass_crashes_witness :
    (∀ df ∈ [dfCanon], "num" ∉ df.columns) ∧
    combine [dfCanon] = Except.ok (concatDfs [dfCanon]) ∧
    amountSignPass (concatDfs [dfCanon]) =
      Except.error (PyErr.attributeError "num") := by
  refine ⟨by decide, by decide, ?_⟩
  exact c6_sign_pass_crashes [dfCanon] _ (by decide) (by decide)

/-! ### Schema Normalizer idempotence (C4) -/

theorem normalizeFile_eq (fn : String) (df : Df) :
    normalizeFile fn df =
      (payDateInsert fn (rename_columns.foldl applyRename df)).bind
        (fun d2 => Except.ok (del_columns.foldl applyDrop d2)) := rfl

theorem applyRename_columns_subset {c : String} (df : Df) (kv : String × String)
    (h : c ∈ (applyRename df kv).columns) : c ∈ df.columns ∨ c = kv.2 := by
  unfold applyRename at h
  split at h
  · rcases List.mem_map.mp h with ⟨a, ha, hac⟩
    by_cases hak : a = kv.1
    · rw [if_pos hak] at hac
      exact Or.inr hac.symm
    · rw [if_neg hak] at hac
      exact Or.inl (hac ▸ ha)
  · exact Or.inl h

theorem not_mem_applyRename (df : Df) (kv : String × String) {c : String}
    (h1 : c ∉ df.columns) (h2 : c ≠ kv.2) : c ∉ (applyRename df kv).columns := by
  intro hmem
  rcases applyRename_columns_subset df kv hmem with h | h
  · exact h1 h
  · exact h2 h

theorem key_not_mem_applyRename (df : Df) (kv : String × String)
    (hne : kv.1 ≠ kv.2) : kv.1 ∉ (applyRename df kv).columns := by
  unfold applyRename
  split
  · intro hmem
    rcases List.mem_map.mp hmem with ⟨a, _, hac⟩
    by_cases hak : a = kv.1
    · rw [if_pos hak] at hac
      exact hne hac.symm
    · rw [if_neg hak] at hac
      exact hak hac
  · assumption

theorem not_mem_foldl_applyRename (l : List (String × String)) (df : Df)
    (c : String) (h1 : c ∉ df.columns) (h2 : ∀ kv ∈ l, c ≠ kv.2) :
    c ∉ (l.foldl applyRename df).columns := by
  induction l generalizing df with
  | nil => exact h1
  | cons a t ih =>
    rw [List.foldl_cons]
    exact ih (applyRename df a) (not_mem_applyRename df a h1 (h2 a (by simp)))
      (fun kv hkv => h2 kv (by simp [hkv]))

theorem foldl_applyRename_keys_absent (l : List (String × String)) (df : Df)
    (hcross : ∀ kv ∈ l, ∀ kv' ∈ l, kv.1 ≠ kv'.2) :
    ∀ kv ∈ l, kv.1 ∉ (l.foldl applyRename df).columns := by
  induction l generalizing df with
  | nil =>
    intro kv hkv
    simp at hkv
  | cons a t ih =>
    intro kv hkv
    rw [List.foldl_cons]
    rcases List.mem_cons.mp hkv with rfl | hkv'
    · exact not_mem_foldl_applyRename t (applyRename df kv) kv.1
        (key_not_mem_applyRename df kv (hcross kv (by simp) kv (by simp)))
        (fun kv' hkv' => hcross kv (by simp) kv' (by simp [hkv']))
    · exact ih (applyRename df a)
        (fun p hp p' hp' => hcross p (by simp [hp]) p' (by simp [hp'])) kv hkv'

theorem payDateInsert_ok_mem (fn : String) (df d : Df)
    (h : payDateInsert fn df = Except.ok d) : "Pay Date" ∈ d.columns := by
  unfold payDateInsert at h
  split at h
  · injection h with h'
    subst h'
    assumption
  · split at h
    · exact absurd h (by simp)
    · injection h with h'
      subst h'
      have hlen : 2 ≤ df.columns.length := by omega
      exact (List.mem_insertIdx hlen).mpr (Or.inl rfl)

theorem payDateInsert_ok_not_mem (fn : String) (df d : Df) (c : String)
    (h : payDateInsert fn df = Except.ok d) (hc : c ∉ df.columns)
    (hcp : c ≠ "Pay Date") : c ∉ d.columns := by
  unfold payDateInsert at h
  split at h
  · injection h with h'
    subst h'
    exact hc
  · split at h
    · exact absurd h (by simp)
    · injection h with h'
      subst h'
      intro hmem
      have hlen : 2 ≤ df.columns.length := by omega
      rcases (List.mem_insertIdx hlen).mp hmem with h' | h'
      · exact hcp h'
      · exact hc h'

theorem mem_applyDrop_mono (df : Df) (n c : String)
    (h : c ∈ (applyDrop df n).columns) : c ∈ df.columns := by
  unfold applyDrop at h
  split at h
  · exact (List.mem_filter.mp h).1
  · exact h

theorem self_not_mem_applyDrop (df : Df) (n : String) :
    n ∉ (applyDrop df n).columns := by
  unfold applyDrop
  split
  · intro h
    have hp := (List.mem_filter.mp h).2
    simp at hp
  · assumption

theorem mem_applyDrop_of (df : Df) (n c : String) (h : c ∈ df.columns)
    (hne : c ≠ n) : c ∈ (applyDrop df n).columns := by
  unfold applyDrop
  split
  · exact List.mem_filter.mpr ⟨h, by simp [hne]⟩
  · exact h

theorem not_mem_foldl_applyDrop (l : List String) (df : Df) (c : String)
    (h : c ∉ df.columns) : c ∉ (l.foldl applyDrop df).columns := by
  induction l generalizing df with
  | nil => exact h
  | cons a t ih =>
    rw [List.foldl_cons]
    exact ih _ (fun hmem => h (mem_applyDrop_mono df a c hmem))

theorem mem_foldl_applyDrop_of (l : List String) (df : Df) (c : String)
    (h : c ∈ df.columns) (hne : ∀ n ∈ l, c ≠ n) :
    c ∈ (l.foldl applyDrop df).columns := by
  induction l generalizing df with
  | nil => exact h
  | cons a t ih =>
    rw [List.foldl_cons]
    exact ih _ (mem_applyDrop_of df a c h (hne a (by simp)))
      (fun n hn => hne n (by simp [hn]))

theorem foldl_applyDrop_dels_absent (l : List String) (df : Df) :
    ∀ n ∈ l, n ∉ (l.foldl applyDrop df).columns := by
  induction l generalizing df with
  | nil =>
    intro n hn
    simp at hn
  | cons a t ih =>
    intro n hn
    rw [List.foldl_cons]
    rcases List.mem_cons.mp hn with rfl | hn'
    · exact not_mem_foldl_applyDrop t _ n (self_not_mem_applyDrop df n)
    · exact ih _ n hn'

theorem foldl_fix {α β : Type} (l : List α) (f : β → α → β) (b : β)
    (h : ∀ a ∈ l, f b a = b) : l.foldl f b = b := by
  induction l with
  | nil => rfl
  | cons a t ih =>
    rw [List.foldl_cons, h a (by simp)]
    exact ih (fun x hx => h x (by simp [hx]))

theorem applyRename_not_mem_fix (df : Df) (kv : String × String)
    (h : kv.1 ∉ df.columns) : applyRename df kv = df := by
  unfold applyRename
  rw [if_neg h]

theorem applyDrop_not_mem_fix (df : Df) (n : String) (h : n ∉ df.columns) :
    applyDrop df n = df := by
  unfold applyDrop
  rw [if_neg h]

/-- C4 counterexample: `dfBoth` satisfies the claim's literal hypotheses
(canonical names present, `Pay Date` present, no deny-listed columns) but
still carries a rename-source column `Name`, so a further normalization
pass changes the column set (`Name` disappears). -/
theorem c4_counterexample :
    ("Pay Date" ∈ dfBoth.columns ∧
      (∀ c ∈ canonicalColumns, c ∈ dfBoth.columns) ∧
      (∀ n ∈ del_columns, n ∉ dfBoth.columns)) ∧
    normalizeFile "2023-2.csv" dfBoth = Except.ok dfBothOut ∧
    dfBothOut.columns ≠ dfBoth.columns ∧
    "Name" ∈ dfBoth.columns ∧ "Name" ∉ dfBothOut.columns := by
  decide

/-- C4 (amended): normalization is idempotent on its own outputs — for
every file the pass produced, running the pass again returns the file
unchanged (columns and rows): the renames, the Pay Date synthesis and
the drops are all no-ops the second time. -/
theorem c4_amended_normalize_idempotent (fn : String) (df d : Df)
    (h : normalizeFile fn df = Except.ok d) :
    normalizeFile fn d = Except.ok d := by
  rw [normalizeFile_eq] at h
  cases hpi : payDateInsert fn (rename_columns.foldl applyRename df) with
  | error e =>
    rw [hpi] at h
    exact absurd h (by simp [Except.bind])
  | ok d2 =>
    rw [hpi] at h
    have hd : del_columns.foldl applyDrop d2 = d := by
      simpa [Except.bind] using h
    have hkeys : ∀ kv ∈ rename_columns, kv.1 ∉ d.columns := by
      intro kv hkv
      have h1 : kv.1 ∉ (rename_columns.foldl applyRename df).columns :=
        foldl_applyRename_keys_absent rename_columns df (by decide) kv hkv
      have hkp : kv.1 ≠ "Pay Date" := by
        fin_cases hkv <;> decide
      have h2 : kv.1 ∉ d2.columns :=
        payDateInsert_ok_not_mem fn (rename_columns.foldl applyRename df) d2
          kv.1 hpi h1 hkp
      rw [← hd]
      exact not_mem_foldl_applyDrop del_columns d2 kv.1 h2
    have hpay : "Pay Date" ∈ d.columns := by
      rw [← hd]
      exact mem_foldl_applyDrop_of del_columns d2 "Pay Date"
        (payDateInsert_ok_mem fn (rename_columns.foldl applyRename df) d2 hpi)
        (by decide)
    have hdels : ∀ n ∈ del_columns, n ∉ d.columns := by
      intro n hn
      rw [← hd]
      exact foldl_applyDrop_dels_absent del_columns d2 n hn
    have hren : rename_columns.foldl applyRename d = d :=
      foldl_fix rename_columns applyRename d
        (fun kv hkv => applyRename_not_mem_fix d kv (hkeys kv hkv))
    have hpi2 : payDateInsert fn d = Except.ok d := by
      unfold payDateInsert
      rw [if_pos hpay]
    have hdr : del_columns.foldl applyDrop d = d :=
      foldl_fix del_columns applyDrop d
        (fun n hn => applyDrop_not_mem_fix d n (hdels n hn))
    rw [normalizeFile_eq, hren, hpi2]
    simp [Except.bind, hdr]

/-- Witness for the amended C4: re-normalizing the normalized legacy file
is the identity. -/
theorem c4_amended_normalize_idempotent_witness :
    normalizeFile "2019-4.csv" dfLegacy = Except.ok dfLegacyNorm ∧
    normalizeFile "2019-4.csv" dfLegacyNorm = Except.ok dfLegacyNorm := by
  refine ⟨by decide, ?_⟩
  exact c4_amended_normalize_idempotent "2019-4.csv" dfLegacy dfLegacyNorm
    (by decide)

/-! ### Chronology rename loop safety (C10) -/

theorem ofDigs_digsAux (fuel : Nat) : ∀ n : Nat, n ≤ fuel →
    ofDigs (digsAux fuel n) = n := by
  induction fuel with
  | zero =>
    intro n hn
    have : n = 0 := by omega
    subst this
    rfl
  | succ f ih =>
    intro n hn
    cases n with
    | zero => rfl
    | succ k =>
      show ofDigs ((k + 1) % 10 :: digsAux f ((k + 1) / 10)) = k + 1
      rw [ofDigs]
      have hlt : (k + 1) / 10 < k + 1 := Nat.div_lt_self (by omega) (by omega)
      rw [ih ((k + 1) / 10) (by omega)]
      omega

theorem digsAux_lt_ten (fuel : Nat) : ∀ n : Nat, ∀ d ∈ digsAux fuel n, d < 10 := by
  induction fuel with
  | zero =>
    intro n d hd
    cases n <;> simp [digsAux] at hd
  | succ f ih =>
    intro n d hd
    cases n with
    | zero => simp [digsAux] at hd
    | succ k =>
      rcases List.mem_cons.mp hd with rfl | hd'
      · exact Nat.mod_lt _ (by omega)
      · exact ih _ d hd'

theorem toNat_digitChar {d : Nat} (h : d < 10) : (digitChar d).toNat - 48 = d := by
  interval_cases d <;> decide

theorem digitChar_isDigit {d : Nat} (h : d < 10) : (digitChar d).isDigit = true := by
  interval_cases d <;> decide

theorem reprVal_natRepr (n : Nat) : reprVal (natRepr n) = n := by
  unfold natRepr
  split
  · subst ‹n = 0›
    rfl
  · unfold reprVal
    rw [List.map_reverse, List.reverse_reverse, List.map_map]
    have hid : (toDigs n).map ((fun c => c.toNat - 48) ∘ digitChar) = toDigs n := by
      have : ∀ d ∈ toDigs n, ((fun c => c.toNat - 48) ∘ digitChar) d = id d := by
        intro d hd
        exact toNat_digitChar (digsAux_lt_ten n n d hd)
      rw [List.map_congr_left this, List.map_id]
    rw [hid]
    exact ofDigs_digsAux n n (Nat.le_refl n)

theorem natRepr_all_digit (n : Nat) : ∀ c ∈ natRepr n, c.isDigit = true := by
  unfold natRepr
  split
  · intro c hc
    simp at hc
    subst hc
    decide
  · intro c hc
    rw [List.mem_reverse] at hc
    rcases List.mem_map.mp hc with ⟨d, hd, rfl⟩
    exact digitChar_isDigit (digsAux_lt_ten n n d hd)

theorem dash_not_mem_natRepr (n : Nat) : '-' ∉ natRepr n := by
  intro h
  exact absurd (natRepr_all_digit n '-' h) (by decide)

theorem toDigs_succ (k : Nat) :
    toDigs (k + 1) = (k + 1) % 10 :: digsAux k ((k + 1) / 10) := rfl

theorem natRepr_ne_nil (n : Nat) : natRepr n ≠ [] := by
  unfold natRepr
  split
  · simp
  · obtain ⟨k, rfl⟩ : ∃ k, n = k + 1 := ⟨n - 1, by omega⟩
    rw [toDigs_succ]
    simp

theorem intReprVal_intRepr (i : Int) : intReprVal (intRepr i) = i := by
  unfold intRepr
  split
  · show intReprVal ('-' :: natRepr i.natAbs) = i
    rw [intReprVal, if_pos rfl, reprVal_natRepr]
    omega
  · cases hna : natRepr i.natAbs with
    | nil => exact absurd hna (natRepr_ne_nil i.natAbs)
    | cons c cs =>
      have hcd : c ≠ '-' := by
        intro hc
        have := natRepr_all_digit i.natAbs c (by rw [hna]; simp)
        rw [hc] at this
        exact absurd this (by decide)
      have hval : intReprVal (c :: cs) = reprVal (c :: cs) := by
        show (if c = '-' then -(reprVal cs : Int) else reprVal (c :: cs)) = _
        rw [if_neg hcd]
      rw [hval, ← hna, reprVal_natRepr]
      omega

theorem intRepr_inj {a b : Int} (h : intRepr a = intRepr b) : a = b := by
  have h2 := congrArg intReprVal h
  rw [intReprVal_intRepr, intReprVal_intRepr] at h2
  exact h2

theorem dash_not_mem_intRepr {m : Int} (h : 0 ≤ m) : '-' ∉ intRepr m := by
  unfold intRepr
  rw [if_neg (by omega)]
  exact dash_not_mem_natRepr m.natAbs

theorem dashfree_append_inj : ∀ (P1 P2 S1 S2 : List Char), '-' ∉ P1 → '-' ∉ P2 →
    P1 ++ '-' :: S1 = P2 ++ '-' :: S2 → P1 = P2 ∧ S1 = S2 := by
  intro P1
  induction P1 with
  | nil =>
    intro P2 S1 S2 _ h2 h
    cases P2 with
    | nil =>
      simp only [List.nil_append, List.cons.injEq] at h
      exact ⟨rfl, h.2⟩
    | cons b t2 =>
      simp only [List.nil_append, List.cons_append, List.cons.injEq] at h
      exact absurd (h.1 ▸ List.mem_cons_self b t2) (h.1 ▸ h2)
  | cons a t ih =>
    intro P2 S1 S2 h1 h2 h
    cases P2 with
    | nil =>
      simp only [List.cons_append, List.nil_append, List.cons.injEq] at h
      exact absurd (h.1 ▸ List.mem_cons_self a t) (h.1 ▸ h1)
    | cons b t2 =>
      simp only [List.cons_append, List.cons.injEq] at h
      obtain ⟨hab, h'⟩ := h
      subst hab
      obtain ⟨ht, hs⟩ := ih t2 S1 S2
        (fun hm => h1 (List.mem_cons_of_mem _ hm))
        (fun hm => h2 (List.mem_cons_of_mem _ hm)) h'
      exact ⟨by rw [ht], hs⟩

theorem chronoName_inj (y1 m1 y2 m2 : Int) (a1 : 1 ≤ m1) (a2 : m1 ≤ 12)
    (b1 : 1 ≤ m2) (b2 : m2 ≤ 12)
    (h : chronoName y1 m1 = chronoName y2 m2) : y1 = y2 ∧ m1 = m2 := by
  have hdata : intRepr y1 ++ '-' :: (intRepr m1 ++ ['.', 'c', 's', 'v']) =
      intRepr y2 ++ '-' :: (intRepr m2 ++ ['.', 'c', 's', 'v']) :=
    congrArg String.data h
  have hs1 : '-' ∉ intRepr m1 ++ ['.', 'c', 's', 'v'] := by
    intro hm
    rcases List.mem_append.mp hm with h' | h'
    · exact dash_not_mem_intRepr (by omega) h'
    · exact absurd h' (by decide)
  have hs2 : '-' ∉ intRepr m2 ++ ['.', 'c', 's', 'v'] := by
    intro hm
    rcases List.mem_append.mp hm with h' | h'
    · exact dash_not_mem_intRepr (by omega) h'
    · exact absurd h' (by decide)
  have hrev : (intRepr m1 ++ ['.', 'c', 's', 'v']).reverse ++ '-' :: (intRepr y1).reverse =
      (intRepr m2 ++ ['.', 'c', 's', 'v']).reverse ++ '-' :: (intRepr y2).reverse := by
    have h2 := congrArg List.reverse hdata
    simpa [List.reverse_append, List.append_assoc] using h2
  obtain ⟨hm', hy'⟩ := dashfree_append_inj _ _ _ _
    (fun hm => hs1 (List.mem_reverse.mp hm))
    (fun hm => hs2 (List.mem_reverse.mp hm)) hrev
  have hyy : intRepr y1 = intRepr y2 := List.reverse_injective hy'
  have hmm : intRepr m1 ++ ['.', 'c', 's', 'v'] = intRepr m2 ++ ['.', 'c', 's', 'v'] :=
    List.reverse_injective hm'
  exact ⟨intRepr_inj hyy, intRepr_inj (List.append_cancel_right hmm)⟩

theorem monthIdx_chronoStep (p : Int × Int) :
    monthIdx (chronoStep p) = monthIdx p - 1 := by
  rcases p with ⟨y, m⟩
  simp only [chronoStep, monthIdx]
  split <;> simp_all <;> omega

theorem chronoStep_month_bounds (p : Int × Int) (h1 : 1 ≤ p.2) (h2 : p.2 ≤ 12) :
    1 ≤ (chronoStep p).2 ∧ (chronoStep p).2 ≤ 12 := by
  rcases p with ⟨y, m⟩
  simp only [chronoStep]
  split <;> simp_all <;> omega

theorem mem_chronoPairs_le (n : Nat) : ∀ (p q : Int × Int),
    q ∈ chronoPairs p n → monthIdx q ≤ monthIdx p := by
  induction n with
  | zero =>
    intro p q h
    simp [chronoPairs] at h
  | succ k ih =>
    intro p q h
    rcases List.mem_cons.mp h with rfl | h'
    · exact le_refl _
    · have hle := ih (chronoStep p) q h'
      have hstep := monthIdx_chronoStep p
      omega

theorem mem_chronoPairs_bounds (n : Nat) : ∀ (p q : Int × Int),
    1 ≤ p.2 → p.2 ≤ 12 → q ∈ chronoPairs p n → 1 ≤ q.2 ∧ q.2 ≤ 12 := by
  induction n with
  | zero =>
    intro p q _ _ h
    simp [chronoPairs] at h
  | succ k ih =>
    intro p q h1 h2 h
    rcases List.mem_cons.mp h with rfl | h'
    · exact ⟨h1, h2⟩
    · obtain ⟨b1, b2⟩ := chronoStep_month_bounds p h1 h2
      exact ih (chronoStep p) q b1 b2 h'

theorem chronoPairs_nodup (n : Nat) : ∀ p : Int × Int, (chronoPairs p n).Nodup := by
  induction n with
  | zero =>
    intro p
    simp [chronoPairs]
  | succ k ih =>
    intro p
    show (p :: chronoPairs (chronoStep p) k).Nodup
    refine List.nodup_cons.mpr ⟨?_, ih (chronoStep p)⟩
    intro hmem
    have hle := mem_chronoPairs_le k (chronoStep p) p hmem
    have hstep := monthIdx_chronoStep p
    omega

theorem chronoNames_nodup (y m : Int) (n : Nat) (h1 : 1 ≤ m) (h2 : m ≤ 12) :
    (chronoNames y m n).Nodup := by
  unfold chronoNames
  apply List.Nodup.map_on _ (chronoPairs_nodup n (y, m))
  intro p hp q hq hname
  obtain ⟨p1, p2⟩ := mem_chronoPairs_bounds n (y, m) p h1 h2 hp
  obtain ⟨q1, q2⟩ := mem_chronoPairs_bounds n (y, m) q h1 h2 hq
  obtain ⟨hy, hm⟩ := chronoName_inj p.1 p.2 q.1 q.2 p1 p2 q1 q2 hname
  exact Prod.ext hy hm

theorem dash_mem_chronoName (y m : Int) : '-' ∈ (chronoName y m).data := by
  show '-' ∈ intRepr y ++ '-' :: (intRepr m ++ ['.', 'c', 's', 'v'])
  exact List.mem_append.mpr (Or.inr (by simp))

theorem dash_not_mem_numeric (s : String) (h : isNumericCsv s = true) :
    '-' ∉ s.data := by
  unfold isNumericCsv at h
  simp only [Bool.and_eq_true, decide_eq_true_eq] at h
  intro hmem
  rw [← List.take_append_drop (s.data.length - 4) s.data] at hmem
  rcases List.mem_append.mp hmem with h' | h'
  · have hd := List.all_eq_true.mp h.1.2 '-' h'
    exact absurd hd (by decide)
  · rw [h.2] at h'
    exact absurd h' (by decide)

theorem chronoName_ne_numeric (y m : Int) (f : String)
    (hf : isNumericCsv f = true) : chronoName y m ≠ f := by
  intro he
  exact dash_not_mem_numeric f hf (he ▸ dash_mem_chronoName y m)

theorem renameLoop_card : ∀ (fs : List String) (y m : Int) (d : Finset String),
    1 ≤ m → m ≤ 12 →
    fs.Nodup → (∀ f ∈ fs, isNumericCsv f = true) →
    (∀ f ∈ fs, f ∈ d) →
    (∀ x ∈ d, x ∈ fs ∨ ∃ y' m', 1 ≤ m' ∧ m' ≤ 12 ∧
      12 * y + m < 12 * y' + m' ∧ x = chronoName y' m') →
    (renameLoop fs y m d).card = d.card := by
  intro fs
  induction fs with
  | nil =>
    intro y m d _ _ _ _ _ _
    rfl
  | cons f rest ih =>
    intro y m d hm1 hm2 hnd hnum hsub hcls
    have hfd : f ∈ d := hsub f (by simp)
    have hnew : chronoName y m ∉ d := by
      intro hmem
      rcases hcls _ hmem with hin | ⟨y', m', b1, b2, hlt, hx⟩
      · exact chronoName_ne_numeric y m _ (hnum _ hin) rfl
      · obtain ⟨hy, hm⟩ := chronoName_inj y m y' m' hm1 hm2 b1 b2 hx
        omega
    have hnew' : chronoName y m ∉ d.erase f :=
      fun hmem => hnew (Finset.mem_of_mem_erase hmem)
    have hcard : (osRename d f (chronoName y m)).card = d.card := by
      unfold osRename
      rw [Finset.card_insert_of_not_mem hnew', Finset.card_erase_of_mem hfd]
      have hpos : 1 ≤ d.card := Finset.card_pos.mpr ⟨f, hfd⟩
      omega
    have hstep := monthIdx_chronoStep (y, m)
    simp only [monthIdx] at hstep
    obtain ⟨b1, b2⟩ := chronoStep_month_bounds (y, m) hm1 hm2
    show (renameLoop rest (chronoStep (y, m)).1 (chronoStep (y, m)).2
      (osRename d f (chronoName y m))).card = d.card
    rw [ih (chronoStep (y, m)).1 (chronoStep (y, m)).2
      (osRename d f (chronoName y m)) b1 b2 hnd.of_cons
      (fun g hg => hnum g (by simp [hg]))
      ?hsub ?hcls]
    · exact hcard
    case hsub =>
      intro g hg
      unfold osRename
      apply Finset.mem_insert_of_mem
      refine Finset.mem_erase.mpr ⟨?_, hsub g (by simp [hg])⟩
      intro hgf
      exact (List.nodup_cons.mp hnd).1 (hgf ▸ hg)
    case hcls =>
      intro x hx
      unfold osRename at hx
      rcases Finset.mem_insert.mp hx with rfl | hx'
      · refine Or.inr ⟨y, m, hm1, hm2, ?_, rfl⟩
        omega
      · have hxd : x ∈ d := Finset.mem_of_mem_erase hx'
        have hxf : x ≠ f := (Finset.mem_erase.mp hx').1
        rcases hcls x hxd with hin | ⟨y', m', c1, c2, c3, c4⟩
        · rcases List.mem_cons.mp hin with rfl | hin'
          · exact absurd rfl hxf
          · exact Or.inl hin'
        · exact Or.inr ⟨y', m', c1, c2, by omega, c4⟩

/-- C10: from any anchor with `1 ≤ month ≤ 12` and any duplicate-free
directory of numeric `.csv` files, the generated `{year}-{month}.csv`
labels are pairwise distinct and collide with no numeric filename, and
after the rename loop the directory still holds exactly as many files
as before — no `os.rename` ever overwrites an existing file. -/
theorem c10_rename_no_collision (y m : Int) (files : List String)
    (hm1 : 1 ≤ m) (hm2 : m ≤ 12) (hnd : files.Nodup)
    (hnum : ∀ f ∈ files, isNumericCsv f = true) :
    (chronoNames y m files.length).Nodup ∧
    (∀ l ∈ chronoNames y m files.length, ∀ f ∈ files, l ≠ f) ∧
    (renameLoop (natsorted files) y m files.toFinset).card = files.length := by
  refine ⟨chronoNames_nodup y m files.length hm1 hm2, ?_, ?_⟩
  · intro l hl f hf
    unfold chronoNames at hl
    rcases List.mem_map.mp hl with ⟨p, _, rfl⟩
    exact chronoName_ne_numeric p.1 p.2 f (hnum f hf)
  · have hperm : (natsorted files).Perm files := List.perm_insertionSort _ files
    have hnd' : (natsorted files).Nodup := hperm.nodup_iff.mpr hnd
    have hcard := renameLoop_card (natsorted files) y m files.toFinset hm1 hm2
      hnd' (fun f hf => hnum f (hperm.mem_iff.mp hf))
      (fun f hf => List.mem_toFinset.mpr (hperm.mem_iff.mp hf))
      (fun x hx => Or.inl (hperm.mem_iff.mpr (List.mem_toFinset.mp hx)))
    rw [hcard, List.toFinset_card_of_nodup hnd]

/-- Witness for C10 at the concrete anchor (2023, 2) and three numeric
files. -/
theorem c10_rename_no_collision_witness :
    ((1 : Int) ≤ 2 ∧ (2 : Int) ≤ 12 ∧
      (["0.csv", "1.csv", "2.csv"] : List String).Nodup ∧
      (∀ f ∈ (["0.csv", "1.csv", "2.csv"] : List String), isNumericCsv f = true)) ∧
    ((chronoNames 2023 2 3).Nodup ∧
      (∀ l ∈ chronoNames 2023 2 3,
        ∀ f ∈ (["0.csv", "1.csv", "2.csv"] : List String), l ≠ f) ∧
      (renameLoop (natsorted ["0.csv", "1.csv", "2.csv"]) 2023 2
        (["0.csv", "1.csv", "2.csv"] : List String).toFinset).card = 3) := by
  refine ⟨⟨by decide, by decide, by decide, by decide⟩, ?_⟩
  exact c10_rename_no_collision 2023 2 ["0.csv", "1.csv", "2.csv"]
    (by decide) (by decide) (by decide) (by decide)
